import Mathlib

/-
Verification development for the ERCOT API client in src/ercot_api.py:
the paginated fetch engine (ERCOTAPI.__get_data), the token-expiry
handling (lines 190-192, 244-247), and the time-series grid normalizers
(get_dam_lmp, get_dam_spp, get_rtm_spp_lz, get_rtm_spp_hub,
get_rtm_spp_rn).

Modelling conventions: calendar days are abstracted to naturals (one per
day of the requested inclusive range), prices to rationals, the pandas
missing-value marker nan to Option.none, and code paths that raise to
Option-valued functions returning none.
-/

namespace ERCOTAPI

/-- Column of one entity before the left-merge: a list of (time key, value)
pairs; none is the missing-value marker (pandas nan). -/
abbrev KCol (κ : Type) := List (κ × Option ℚ)

/-- Keep-first deduplication, recursion totalized by a fuel argument (the
length of the list always suffices, since filtering never lengthens the
remainder): keep the head, drop every later pair sharing its key, recurse. -/
def dedupKeysF {κ : Type} [DecidableEq κ] : ℕ → KCol κ → KCol κ
  | _, [] => []
  | 0, _ :: _ => []
  | fuel + 1, p :: rest => p :: dedupKeysF fuel (rest.filter (fun q => decide (q.1 ≠ p.1)))

/-- Keep-first deduplication on the time key, modelling
temp_df.drop_duplicates(subset=key_cols, keep="first") (line 318 and the
analogous lines of the other reports). -/
def dedupKeys {κ : Type} [DecidableEq κ] (l : KCol κ) : KCol κ :=
  dedupKeysF l.length l

/-- Ordered insertion used by the model of temp_df.sort_values(key_cols);
le compares time keys. -/
def insertPair {κ : Type} (le : κ → κ → Bool) (p : κ × Option ℚ) : KCol κ → KCol κ
  | [] => [p]
  | q :: rest => if le p.1 q.1 then p :: q :: rest else q :: insertPair le p rest

/-- Model of temp_df.sort_values(key_cols) (line 321); after the keep-first
deduplication the keys are distinct, so the sorted column does not depend on
the sorting algorithm. -/
def sortPairs {κ : Type} (le : κ → κ → Bool) : KCol κ → KCol κ
  | [] => []
  | p :: rest => insertPair le p (sortPairs le rest)

/-- Shell of the per-entity gap-fill loop (lines 307-315 and the analogous
lines of the other reports): the source iterates the requested date range
and appends, for each date, a batch of missing-slot rows computed from the
entity frame as it stands when that date is processed
(temp_df.loc[len(temp_df)] = row). -/
def gapFillFold {κ : Type} (fill : KCol κ → ℕ → KCol κ) (dr : List ℕ) (pairs : KCol κ) : KCol κ :=
  dr.foldl (fun acc d => acc ++ fill acc d) pairs

/-- Value contributed by an entity column to one grid row under
pd.merge(formatted_df, temp_df, how="left", on=key_cols) (line 328): the
matching row value when the key is present, else the missing-value marker. -/
def cellOf {κ : Type} [DecidableEq κ] (col : KCol κ) (s : κ) : Option ℚ :=
  match col.find? (fun p => decide (p.1 = s)) with
  | some p => p.2
  | none => none

/-- Row multiplicity of the left-merge (line 328): each existing grid row is
kept once when the entity column has no matching key, and is repeated once
per matching row otherwise. -/
def mergeRowMult {κ : Type} [DecidableEq κ] (rows : List κ) (col : KCol κ) : List κ :=
  rows.flatMap (fun s =>
    let n := col.countP (fun p => decide (p.1 = s))
    if n = 0 then [s] else List.replicate n s)

/-- Model of raw_data["Unit"].unique() (line 299): the distinct entity keys
in order of first occurrence. -/
def unitsOf {α : Type} (key : α → String) (records : List α) : List String :=
  records.foldl (fun acc r => if key r ∈ acc then acc else acc ++ [key r]) []

/-- Model of pd.date_range(deliveryDateFrom, deliveryDateTo, freq="D")
(lines 290-292): the inclusive daily range, empty when from exceeds to. -/
def dateRangeL (dFrom dTo : ℕ) : List ℕ :=
  if dFrom ≤ dTo then List.range' dFrom (dTo - dFrom + 1) else []

/-- One raw hourly record after column parsing in get_dam_lmp or
get_dam_spp: delivery date, hour-ending, entity key ("Unit"), price. -/
structure Rec where
  date : ℕ
  he : ℕ
  unit : String
  value : ℚ
deriving DecidableEq

/-- Pointwise effect of the sequential hour-ending remap loop of lines
285-286: for hour in range(1, 25), replace value hour by hour - 1, in
ascending order of hour. -/
def hourRemapSingle (x : ℕ) : ℕ :=
  (List.range' 1 24).foldl (fun v hour => if v = hour then hour - 1 else v) x

/-- The same loop as the source runs it: each pass maps one replace over the
entire hour-ending column. -/
def hourRemapList (l : List ℕ) : List ℕ :=
  (List.range' 1 24).foldl (fun col hour => col.map (fun v => if v = hour then hour - 1 else v)) l

/-- Hour-ending remap applied record-wise (the column lives inside the raw
frame, so remapping the column remaps each record). -/
def remapRecs (recs : List Rec) : List Rec :=
  recs.map (fun r => ⟨r.date, hourRemapSingle r.he, r.unit, r.value⟩)

/-- Model of pd.MultiIndex.from_product([date_range, range(24)]) (line 295):
the canonical hourly grid, one row per (date, hour-ending). -/
def hourlyGrid (dr : List ℕ) : List (ℕ × ℕ) :=
  dr.flatMap (fun d => (List.range 24).map (fun h => (d, h)))

/-- Rows of one entity (line 300) projected to (time key, value) pairs. -/
def entityPairsH (recs : List Rec) (u : String) : KCol (ℕ × ℕ) :=
  (recs.filter (fun r => decide (r.unit = u))).map (fun r => ((r.date, r.he), some r.value))

/-- Rows appended for one date of the range by the hourly gap-fill (lines
307-315): if the date is present but its row count differs from 24, append a
nan row for every absent (date, hour); if the date is absent, append nan
rows for all 24 hours. -/
def fillForDateH (acc : KCol (ℕ × ℕ)) (d : ℕ) : KCol (ℕ × ℕ) :=
  if acc.any (fun p => decide (p.1.1 = d)) then
    if acc.countP (fun p => decide (p.1.1 = d)) ≠ 24 then
      (List.range 24).filterMap (fun h =>
        if acc.any (fun p => decide (p.1 = (d, h))) then none
        else some ((d, h), (none : Option ℚ)))
    else []
  else (List.range 24).map (fun h => ((d, h), (none : Option ℚ)))

/-- Lexicographic order on hourly time keys, as sort_values(["Date", "HE"])
orders them. -/
def hKeyLe (a b : ℕ × ℕ) : Bool :=
  decide (a.1 < b.1) || (decide (a.1 = b.1) && decide (a.2 ≤ b.2))

/-- Full per-entity column of get_dam_lmp: project, gap-fill over the date
range, deduplicate keep-first, sort by time key (lines 300-326). -/
def colPairsH (recs : List Rec) (dr : List ℕ) (u : String) : KCol (ℕ × ℕ) :=
  sortPairs hKeyLe (dedupKeys (gapFillFold fillForDateH dr (entityPairsH recs u)))

/-- Normalized hourly output: row keys, entity columns, and the cell
function of the merged frame. -/
structure HTable where
  rows : List (ℕ × ℕ)
  units : List String
  cell : String → ℕ × ℕ → Option ℚ

/-- Normalization layer of get_dam_lmp (lines 290-332): build the canonical
grid, then left-merge every entity column onto it in first-occurrence
order. -/
def hourlyTable (recs : List Rec) (dFrom dTo : ℕ) : HTable :=
  ⟨(unitsOf Rec.unit recs).foldl
      (fun rows u => mergeRowMult rows (colPairsH recs (dateRangeL dFrom dTo) u))
      (hourlyGrid (dateRangeL dFrom dTo)),
   unitsOf Rec.unit recs,
   fun u s => cellOf (colPairsH recs (dateRangeL dFrom dTo) u) s⟩

/-- Model of ERCOTAPI.get_dam_lmp (lines 253-332) and, identically up to
column names, ERCOTAPI.get_dam_spp: parse and remap the raw records, then
normalize onto the hourly grid. When the fetched frame is empty,
raw_data.drop(4, axis=1) (line 280) raises KeyError before any table is
built; that raised path is modelled by none. -/
def get_dam_lmp (recs : List Rec) (dFrom dTo : ℕ) : Option HTable :=
  if recs = [] then none
  else some (hourlyTable (remapRecs recs) dFrom dTo)

/-- One raw sub-hourly record of the np6-905-cd report before remapping:
delivery date, hour-ending 1..24, interval 1..4, entity key, settlement
point type tag (column 4: "LZ", "HU", "RN", ...), price. -/
structure SubRaw where
  date : ℕ
  heRaw : ℕ
  ivRaw : ℕ
  unit : String
  tag : String
  value : ℚ
deriving DecidableEq

/-- One sub-hourly record after remapping: hour-ending 0..23 and minute
offset in {0, 15, 30, 45}. -/
structure SubRec where
  date : ℕ
  he : ℕ
  iv : ℕ
  unit : String
  value : ℚ
deriving DecidableEq

/-- Pointwise effect of the sequential interval remap of lines 672-675:
replace 1 by 0, then 2 by 15, then 3 by 30, then 4 by 45. -/
def intervalRemapSingle (x : ℕ) : ℕ :=
  [((1 : ℕ), (0 : ℕ)), (2, 15), (3, 30), (4, 45)].foldl
    (fun v pr => if v = pr.1 then pr.2 else v) x

/-- Hour and interval remaps applied record-wise (lines 666-677). -/
def remapSubRecs (raws : List SubRaw) : List SubRec :=
  raws.map (fun r => ⟨r.date, hourRemapSingle r.heRaw, intervalRemapSingle r.ivRaw, r.unit, r.value⟩)

/-- Model of pd.MultiIndex.from_product([date_range, range(24),
[0, 15, 30, 45]]) (line 689): the canonical sub-hourly grid, 96 rows per
day. -/
def subGrid (dr : List ℕ) : List (ℕ × ℕ × ℕ) :=
  dr.flatMap (fun d => (List.range 24).flatMap (fun h => [0, 15, 30, 45].map (fun iv => (d, h, iv))))

/-- Rows of one entity of the sub-hourly report projected to (time key,
value) pairs. -/
def entityPairsS (recs : List SubRec) (u : String) : KCol (ℕ × ℕ × ℕ) :=
  (recs.filter (fun r => decide (r.unit = u))).map (fun r => ((r.date, r.he, r.iv), some r.value))

/-- Nan rows for the intervals absent at one (date, hour). -/
def fillMissingIvs (acc : KCol (ℕ × ℕ × ℕ)) (d h : ℕ) : KCol (ℕ × ℕ × ℕ) :=
  [0, 15, 30, 45].filterMap (fun iv =>
    if acc.any (fun p => decide (p.1 = (d, h, iv))) then none
    else some ((d, h, iv), (none : Option ℚ)))

/-- Nan rows for all four intervals of one (date, hour). -/
def allIvs (d h : ℕ) : KCol (ℕ × ℕ × ℕ) :=
  [0, 15, 30, 45].map (fun iv => ((d, h, iv), (none : Option ℚ)))

/-- Rows appended for one date of the range by the sub-hourly gap-fill
(lines 701-721): the source branches on whether the row count of the date
equals 24, on whether the (date, hour) row count is zero, and on whether it
differs from 4, appending nan rows for the absent intervals. -/
def fillForDateS (acc : KCol (ℕ × ℕ × ℕ)) (d : ℕ) : KCol (ℕ × ℕ × ℕ) :=
  if acc.any (fun p => decide (p.1.1 = d)) then
    if acc.countP (fun p => decide (p.1.1 = d)) = 24 then
      (List.range 24).flatMap (fun h =>
        if acc.countP (fun p => decide (p.1.1 = d ∧ p.1.2.1 = h)) ≠ 4 then fillMissingIvs acc d h
        else [])
    else
      (List.range 24).flatMap (fun h =>
        if acc.countP (fun p => decide (p.1.1 = d ∧ p.1.2.1 = h)) = 0 then allIvs d h
        else if acc.countP (fun p => decide (p.1.1 = d ∧ p.1.2.1 = h)) ≠ 4 then fillMissingIvs acc d h
        else [])
  else (List.range 24).flatMap (fun h => allIvs d h)

/-- Lexicographic order on sub-hourly time keys, as
sort_values(["Date", "HE", "Interval"]) orders them. -/
def sKeyLe (a b : ℕ × ℕ × ℕ) : Bool :=
  decide (a.1 < b.1) ||
    (decide (a.1 = b.1) &&
      (decide (a.2.1 < b.2.1) || (decide (a.2.1 = b.2.1) && decide (a.2.2 ≤ b.2.2))))

/-- Full per-entity column of the sub-hourly reports (lines 694-732). -/
def colPairsS (recs : List SubRec) (dr : List ℕ) (u : String) : KCol (ℕ × ℕ × ℕ) :=
  sortPairs sKeyLe (dedupKeys (gapFillFold fillForDateS dr (entityPairsS recs u)))

/-- Normalized sub-hourly output. -/
structure STable where
  rows : List (ℕ × ℕ × ℕ)
  units : List String
  cell : String → ℕ × ℕ × ℕ → Option ℚ

/-- Normalization layer of the sub-hourly reports (lines 684-736). -/
def subTable (recs : List SubRec) (dFrom dTo : ℕ) : STable :=
  ⟨(unitsOf SubRec.unit recs).foldl
      (fun rows u => mergeRowMult rows (colPairsS recs (dateRangeL dFrom dTo) u))
      (subGrid (dateRangeL dFrom dTo)),
   unitsOf SubRec.unit recs,
   fun u s => cellOf (colPairsS recs (dateRangeL dFrom dTo) u) s⟩

/-- Model of get_rtm_spp_lz / get_rtm_spp_hub / get_rtm_spp_rn up to the
merged table (lines 638-738, 740-842, 844-944, which differ only in the
settlement-point-type tag "LZ" / "HU" / "RN" filtered at line 665): filter
by tag, remap, normalize onto the sub-hourly grid. When the fetched frame is
empty, raw_data.loc[raw_data[4] == tag] raises KeyError before any table is
built; that raised path is modelled by none. A non-empty frame with no row
of the requested tag does not raise and yields a table with zero entity
columns. -/
def get_rtm_spp (tag : String) (raws : List SubRaw) (dFrom dTo : ℕ) : Option STable :=
  if raws = [] then none
  else some (subTable (remapSubRecs (raws.filter (fun r => decide (r.tag = tag)))) dFrom dTo)

/-- Skipna row mean, modelling DataFrame.mean(axis=1): missing values are
excluded from both the sum and the count; a row with no present value has a
missing mean. -/
def rowMean (vals : List (Option ℚ)) : Option ℚ :=
  if vals.filterMap id = [] then none
  else some ((vals.filterMap id).sum / (vals.filterMap id).length)

/-- Derived HB_HUBAVG column of get_rtm_spp_hub (line 838):
formatted_df[formatted_df.columns[3:]].mean(axis=1), the skipna mean over
the entity columns of each row. -/
def hubAvgOf (T : STable) : ℕ × ℕ × ℕ → Option ℚ :=
  fun s => rowMean (T.units.map (fun u => T.cell u s))

/-- Model of get_rtm_spp_hub including the derived average column. -/
def get_rtm_spp_hub (raws : List SubRaw) (dFrom dTo : ℕ) :
    Option (STable × (ℕ × ℕ × ℕ → Option ℚ)) :=
  (get_rtm_spp "HU" raws dFrom dTo).map (fun T => (T, hubAvgOf T))

/-- Upstream service as the fetch engine observes it: each HTTP GET is
stamped with the number of requests issued so far (abstract time t).
metaAt t is the _meta totalPages field of a discovery request issued at
time t (none: field missing, the KeyError path of line 209); pageAt t q is
the data array of a page-q request issued at time t (none: field missing,
the KeyError path of line 222). Records are abstracted to natural ids. -/
structure Fetcher where
  metaAt : ℕ → Option ℕ
  pageAt : ℕ → ℕ → Option (List ℕ)

/-- Model of ERCOTAPI.__get_data (lines 170-230). State: requests issued so
far t, accumulated frame raw, current page cur, discovered page count
numPages (none until the discovery request succeeds, matching the
num_pages == 0 sentinel). A missing-metadata discovery reply restarts the
fetch from scratch with the default arguments (line 210); a fetched page is
prepended to the accumulator, pd.concat([new_page, raw_data]) (line 221); a
missing-data page reply re-enters the engine at the same page with the
accumulator preserved (line 223). The fuel argument totalizes the unbounded
recursion of the source: none means the engine has not returned within fuel
steps. -/
def getDataAux (F : Fetcher) : ℕ → ℕ → List ℕ → ℕ → Option ℕ → Option (List ℕ)
  | 0, _, _, _, _ => none
  | fuel + 1, t, _, _, none =>
    match F.metaAt t with
    | none => getDataAux F fuel (t + 1) [] 1 none
    | some n => getDataAux F fuel (t + 1) [] 1 (some n)
  | fuel + 1, t, raw, cur, some n =>
    if n < cur then some raw
    else
      match F.pageAt t cur with
      | some d => getDataAux F fuel (t + 1) (d ++ raw) (cur + 1) (some n)
      | none => getDataAux F fuel (t + 1) raw cur (some n)

/-- Top-level fetch: empty accumulator, page 1, page count undiscovered. -/
def getData (F : Fetcher) (fuel : ℕ) : Option (List ℕ) :=
  getDataAux F fuel 0 [] 1 none

/-- Upstream that answers every request correctly: discovery reports N
pages and every page request returns the records of that page. -/
def allGoodF (N : ℕ) (data : ℕ → List ℕ) : Fetcher :=
  ⟨fun _ => some N, fun _ q => some (data q)⟩

/-- Upstream whose discovery response never carries the totalPages field. -/
def metaMissingF : Fetcher :=
  ⟨fun _ => none, fun _ _ => none⟩

/-- Scripted upstream for a single transient failure at page p of N:
request t = 0 is the discovery and reports N pages; requests t = 1..p-1
must ask pages 1..p-1 in order and succeed; request t = p must ask page p
and comes back without its data field; requests t = p+1..N+1 must ask pages
p..N in order and succeed. Every other request, in particular any repeat of
an already fetched page, gets no usable reply, so a run that returns a
result certifies this exact request sequence. -/
def oneFailF (N p : ℕ) (data : ℕ → List ℕ) : Fetcher :=
  ⟨fun t => if t = 0 then some N else none,
   fun t q =>
     if 1 ≤ t ∧ t < p ∧ q = t then some (data t)
     else if p < t ∧ t ≤ N + 1 ∧ q = t - 1 then some (data (t - 1))
     else none⟩

/-- Records of pages 1..N in the order the engine accumulates them: each
fetched page is prepended to the frame, so a complete fetch holds the pages
in reverse page order. -/
def pagesRev (N : ℕ) (data : ℕ → List ℕ) : List ℕ :=
  ((List.range' 1 N).reverse).flatMap data

/-- Time-aware model of __get_data for the token-expiry behaviour. One
abstract time unit elapses per HTTP request. At each invocation entry (the
top-level call and each KeyError retry, the only places the source reaches
lines 190-192) an expired token, cutoff ≤ now, triggers set_api_connection,
modelled as instantly resetting cutoff to now + 50 as get_connection_status
does on success (lines 244-247, dt.timedelta(minutes=50)); requests issued
by the page loop between entries perform no check. The trace records
(send time, cutoff at send) for every page request issued, most recent
first. -/
def getDataTAux (F : Fetcher) :
    ℕ → ℕ → ℕ → List (ℕ × ℕ) → List ℕ → ℕ → Option ℕ → Bool →
    Option (List (ℕ × ℕ) × List ℕ)
  | 0, _, _, _, _, _, _, _ => none
  | fuel + 1, now, cutoff, trace, raw, cur, numPages, atEntry =>
    let c := if atEntry && decide (cutoff ≤ now) then now + 50 else cutoff
    match numPages with
    | none =>
      match F.metaAt now with
      | none => getDataTAux F fuel (now + 1) c trace [] 1 none true
      | some n => getDataTAux F fuel (now + 1) c trace raw cur (some n) false
    | some n =>
      if n < cur then some (trace, raw)
      else
        match F.pageAt now cur with
        | some d =>
          getDataTAux F fuel (now + 1) c ((now, c) :: trace) (d ++ raw) (cur + 1) (some n) false
        | none =>
          getDataTAux F fuel (now + 1) c ((now, c) :: trace) raw cur (some n) true

/-- Top-level time-aware fetch starting at time now with the given token
cutoff. -/
def getDataT (F : Fetcher) (fuel now cutoff : ℕ) : Option (List (ℕ × ℕ) × List ℕ) :=
  getDataTAux F fuel now cutoff [] [] 1 none true

/-- Test whether some page request of a trace was sent at or after the
token cutoff in force when it was sent. -/
def expiredSend (trace : List (ℕ × ℕ)) : Bool :=
  trace.any (fun e => decide (e.2 ≤ e.1))

/-- Concrete hub-aggregation scenario of the spec (section 8): entity HB_A
holds 10 at the first quarter-hour slot of the single requested day, entity
HB_B holds 20 at the second slot only. -/
def hubScnRaws : List SubRaw :=
  [⟨0, 1, 1, "HB_A", "HU", 10⟩, ⟨0, 1, 2, "HB_B", "HU", 20⟩]

/-- Merged table of the hub scenario. -/
def hubScnT : STable :=
  subTable (remapSubRecs (hubScnRaws.filter (fun r => decide (r.tag = "HU")))) 0 0

/-! Helper lemmas about the per-entity column pipeline. -/

theorem mem_dedupKeysF {κ : Type} [DecidableEq κ] :
    ∀ (fuel : ℕ) (l : KCol κ) (x : κ × Option ℚ), x ∈ dedupKeysF fuel l → x ∈ l := by
  intro fuel
  induction fuel with
  | zero => intro l x hx; cases l <;> simp [dedupKeysF] at hx
  | succ fuel ih =>
    intro l x hx
    cases l with
    | nil => simp [dedupKeysF] at hx
    | cons p rest =>
      rw [dedupKeysF] at hx
      rcases List.mem_cons.mp hx with h | h
      · exact h ▸ List.mem_cons_self _ _
      · exact List.mem_cons_of_mem _ (List.mem_of_mem_filter (ih _ x h))

theorem mem_dedupKeys {κ : Type} [DecidableEq κ] (l : KCol κ) (x : κ × Option ℚ)
    (hx : x ∈ dedupKeys l) : x ∈ l :=
  mem_dedupKeysF l.length l x hx

theorem find?_filter_ne {κ : Type} [DecidableEq κ] (a s : κ) (hne : a ≠ s) :
    ∀ l : KCol κ,
      (l.filter (fun q => decide (q.1 ≠ a))).find? (fun q => decide (q.1 = s)) =
        l.find? (fun q => decide (q.1 = s)) := by
  intro l
  induction l with
  | nil => rfl
  | cons q rest ih =>
    by_cases hq : q.1 = a
    · rw [List.filter_cons_of_neg (by simp [hq]),
        List.find?_cons_of_neg _ (by simp [hq, hne]), ih]
    · rw [List.filter_cons_of_pos (by simp [hq])]
      by_cases hs : q.1 = s
      · rw [List.find?_cons_of_pos _ (by simp [hs]), List.find?_cons_of_pos _ (by simp [hs])]
      · rw [List.find?_cons_of_neg _ (by simp [hs]), List.find?_cons_of_neg _ (by simp [hs]), ih]

theorem dedupKeysF_find? {κ : Type} [DecidableEq κ] (s : κ) :
    ∀ (fuel : ℕ) (l : KCol κ), l.length ≤ fuel →
      (dedupKeysF fuel l).find? (fun p => decide (p.1 = s)) =
        l.find? (fun p => decide (p.1 = s)) := by
  intro fuel
  induction fuel with
  | zero =>
    intro l hl
    have hl0 : l = [] := List.eq_nil_of_length_eq_zero (by omega)
    subst hl0
    rfl
  | succ fuel ih =>
    intro l hl
    cases l with
    | nil => rfl
    | cons p rest =>
      rw [dedupKeysF]
      have hrest : rest.length ≤ fuel := by
        rw [List.length_cons] at hl
        omega
      by_cases hp : p.1 = s
      · rw [List.find?_cons_of_pos _ (by simp [hp]), List.find?_cons_of_pos _ (by simp [hp])]
      · rw [List.find?_cons_of_neg _ (by simp [hp]), List.find?_cons_of_neg _ (by simp [hp]),
          ih _ (le_trans (List.length_filter_le _ _) hrest), find?_filter_ne p.1 s hp]

theorem dedupKeys_find? {κ : Type} [DecidableEq κ] (s : κ) :
    ∀ l : KCol κ,
      (dedupKeys l).find? (fun p => decide (p.1 = s)) = l.find? (fun p => decide (p.1 = s)) :=
  fun l => dedupKeysF_find? s l.length l le_rfl

theorem dedupKeysF_keys_nodup {κ : Type} [DecidableEq κ] :
    ∀ (fuel : ℕ) (l : KCol κ), ((dedupKeysF fuel l).map Prod.fst).Nodup := by
  intro fuel
  induction fuel with
  | zero => intro l; cases l <;> simp [dedupKeysF]
  | succ fuel ih =>
    intro l
    cases l with
    | nil => simp [dedupKeysF]
    | cons p rest =>
      rw [dedupKeysF]
      simp only [List.map_cons, List.nodup_cons]
      refine ⟨?_, ih _⟩
      intro hmem
      rcases List.mem_map.mp hmem with ⟨x, hx, hkey⟩
      have hx2 := mem_dedupKeysF _ _ x hx
      have := List.of_mem_filter hx2
      simp [hkey] at this

theorem dedupKeys_keys_nodup {κ : Type} [DecidableEq κ] :
    ∀ l : KCol κ, ((dedupKeys l).map Prod.fst).Nodup :=
  fun l => dedupKeysF_keys_nodup l.length l

theorem insertPair_perm {κ : Type} (le : κ → κ → Bool) (p : κ × Option ℚ) :
    ∀ l : KCol κ, (insertPair le p l).Perm (p :: l) := by
  intro l
  induction l with
  | nil => exact List.Perm.refl _
  | cons q rest ih =>
    rw [insertPair]
    by_cases h : le p.1 q.1
    · simp [h]
    · simp only [h, if_false]
      exact (ih.cons q).trans (List.Perm.swap p q rest)

theorem sortPairs_perm {κ : Type} (le : κ → κ → Bool) :
    ∀ l : KCol κ, (sortPairs le l).Perm l := by
  intro l
  induction l with
  | nil => exact List.Perm.refl _
  | cons p rest ih =>
    rw [sortPairs]
    exact (insertPair_perm le p _).trans (ih.cons p)

theorem eq_of_mem_of_keys_nodup {κ : Type} [DecidableEq κ] :
    ∀ (l : KCol κ) (x y : κ × Option ℚ),
      (l.map Prod.fst).Nodup → x ∈ l → y ∈ l → x.1 = y.1 → x = y := by
  intro l
  induction l with
  | nil => intro x y _ hx; simp at hx
  | cons a rest ih =>
    intro x y hn hx hy hkey
    rw [List.map_cons] at hn
    have hn1 : a.1 ∉ rest.map Prod.fst := (List.nodup_cons.mp hn).1
    have hn2 : (rest.map Prod.fst).Nodup := (List.nodup_cons.mp hn).2
    rcases List.mem_cons.mp hx with hx1 | hx1 <;> rcases List.mem_cons.mp hy with hy1 | hy1
    · exact hx1.trans hy1.symm
    · exact absurd (List.mem_map.mpr ⟨y, hy1, by rw [← hkey, hx1]⟩) hn1
    · exact absurd (List.mem_map.mpr ⟨x, hx1, by rw [hkey, hy1]⟩) hn1
    · exact ih x y hn2 hx1 hy1 hkey

theorem find?_key_perm {κ : Type} [DecidableEq κ] {l l2 : KCol κ} (hp : l.Perm l2)
    (hn : (l.map Prod.fst).Nodup) (s : κ) :
    l.find? (fun p => decide (p.1 = s)) = l2.find? (fun p => decide (p.1 = s)) := by
  cases h1 : l.find? (fun p => decide (p.1 = s)) with
  | none =>
    cases h2 : l2.find? (fun p => decide (p.1 = s)) with
    | none => rfl
    | some y =>
      exfalso
      have hy := List.mem_of_find?_eq_some h2
      have hno := (List.find?_eq_none.mp h1) y ((hp.mem_iff).mpr hy)
      have hyes := List.find?_some h2
      exact hno hyes
  | some x =>
    cases h2 : l2.find? (fun p => decide (p.1 = s)) with
    | none =>
      exfalso
      have hx := List.mem_of_find?_eq_some h1
      have hno := (List.find?_eq_none.mp h2) x ((hp.mem_iff).mp hx)
      have hyes := List.find?_some h1
      exact hno hyes
    | some y =>
      have hx := List.mem_of_find?_eq_some h1
      have hy := (hp.mem_iff).mpr (List.mem_of_find?_eq_some h2)
      have hxs := List.find?_some h1
      have hys := List.find?_some h2
      simp only [decide_eq_true_eq] at hxs hys
      exact congrArg some (eq_of_mem_of_keys_nodup l x y hn hx hy (hxs.trans hys.symm))

theorem cellOf_sort_dedup {κ : Type} [DecidableEq κ] (le : κ → κ → Bool) (l : KCol κ) (s : κ) :
    cellOf (sortPairs le (dedupKeys l)) s = cellOf l s := by
  have hperm := sortPairs_perm le (dedupKeys l)
  have hn : ((sortPairs le (dedupKeys l)).map Prod.fst).Nodup :=
    ((hperm.map Prod.fst).nodup_iff).mpr (dedupKeys_keys_nodup l)
  unfold cellOf
  rw [find?_key_perm hperm hn s, dedupKeys_find? s l]

theorem countP_key_le_one_of_nodup {κ : Type} [DecidableEq κ] :
    ∀ l : KCol κ, (l.map Prod.fst).Nodup → ∀ s : κ,
      l.countP (fun p => decide (p.1 = s)) ≤ 1 := by
  intro l
  induction l with
  | nil => intro _ s; simp [List.countP_nil]
  | cons p rest ih =>
    intro hn s
    simp only [List.map_cons, List.nodup_cons] at hn
    rw [List.countP_cons]
    by_cases hp : p.1 = s
    · have hzero : rest.countP (fun q => decide (q.1 = s)) = 0 := by
        rw [List.countP_eq_zero]
        intro q hq
        simp only [decide_eq_true_eq]
        intro hqs
        exact hn.1 (List.mem_map.mpr ⟨q, hq, hqs.trans hp.symm⟩)
      simp [hzero, hp]
    · simp only [hp, decide_eq_false_iff_not.mpr hp]
      simpa using ih hn.2 s

theorem sort_dedup_countP_le_one {κ : Type} [DecidableEq κ] (le : κ → κ → Bool) (l : KCol κ)
    (s : κ) : (sortPairs le (dedupKeys l)).countP (fun p => decide (p.1 = s)) ≤ 1 := by
  rw [(sortPairs_perm le (dedupKeys l)).countP_eq]
  exact countP_key_le_one_of_nodup _ (dedupKeys_keys_nodup l) s

theorem mergeRowMult_eq_self {κ : Type} [DecidableEq κ] (col : KCol κ)
    (hcol : ∀ s : κ, col.countP (fun p => decide (p.1 = s)) ≤ 1) :
    ∀ rows : List κ, mergeRowMult rows col = rows := by
  intro rows
  induction rows with
  | nil => rfl
  | cons s rest ih =>
    unfold mergeRowMult at ih ⊢
    rw [List.flatMap_cons, ih]
    have h := hcol s
    rcases Nat.lt_or_ge (col.countP (fun p => decide (p.1 = s))) 1 with h1 | h1
    · have : col.countP (fun p => decide (p.1 = s)) = 0 := by omega
      simp [this]
    · have : col.countP (fun p => decide (p.1 = s)) = 1 := by omega
      simp [this]

theorem foldl_mergeRowMult {κ : Type} [DecidableEq κ] (colFn : String → KCol κ)
    (hcol : ∀ u (s : κ), (colFn u).countP (fun p => decide (p.1 = s)) ≤ 1) :
    ∀ (us : List String) (rows : List κ),
      us.foldl (fun rows u => mergeRowMult rows (colFn u)) rows = rows := by
  intro us
  induction us with
  | nil => intro rows; rfl
  | cons u us ih =>
    intro rows
    rw [List.foldl_cons, mergeRowMult_eq_self (colFn u) (hcol u), ih]

theorem gapFillFold_append {κ : Type} (fill : KCol κ → ℕ → KCol κ) :
    ∀ (dr : List ℕ) (pairs : KCol κ), ∃ rest, gapFillFold fill dr pairs = pairs ++ rest := by
  intro dr
  induction dr with
  | nil => intro pairs; exact ⟨[], (List.append_nil pairs).symm⟩
  | cons d dr ih =>
    intro pairs
    rcases ih (pairs ++ fill pairs d) with ⟨r2, hr2⟩
    exact ⟨fill pairs d ++ r2, by
      unfold gapFillFold at hr2 ⊢
      rw [List.foldl_cons, hr2, List.append_assoc]⟩

theorem gapFillFold_mem {κ : Type} (fill : KCol κ → ℕ → KCol κ)
    (hfill : ∀ (acc : KCol κ) (d : ℕ) (q : κ × Option ℚ), q ∈ fill acc d → q.2 = none) :
    ∀ (dr : List ℕ) (pairs : KCol κ) (q : κ × Option ℚ),
      q ∈ gapFillFold fill dr pairs → q ∈ pairs ∨ q.2 = none := by
  intro dr
  induction dr with
  | nil => intro pairs q hq; exact Or.inl hq
  | cons d dr ih =>
    intro pairs q hq
    unfold gapFillFold at hq
    rw [List.foldl_cons] at hq
    rcases ih (pairs ++ fill pairs d) q hq with h | h
    · rcases List.mem_append.mp h with h1 | h1
      · exact Or.inl h1
      · exact Or.inr (hfill pairs d q h1)
    · exact Or.inr h

theorem fillForDateH_val_none (acc : KCol (ℕ × ℕ)) (d : ℕ) (q : (ℕ × ℕ) × Option ℚ)
    (hq : q ∈ fillForDateH acc d) : q.2 = none := by
  unfold fillForDateH at hq
  split at hq
  · split at hq
    · rcases List.mem_filterMap.mp hq with ⟨h, _, heq⟩
      split at heq
      · exact absurd heq (by simp)
      · rw [← Option.some_inj.mp heq]
    · simp at hq
  · rcases List.mem_map.mp hq with ⟨h, _, heq⟩
    rw [← heq]

theorem fillMissingIvs_val_none (acc : KCol (ℕ × ℕ × ℕ)) (d h : ℕ) (q : (ℕ × ℕ × ℕ) × Option ℚ)
    (hq : q ∈ fillMissingIvs acc d h) : q.2 = none := by
  unfold fillMissingIvs at hq
  rcases List.mem_filterMap.mp hq with ⟨iv, _, heq⟩
  split at heq
  · exact absurd heq (by simp)
  · rw [← Option.some_inj.mp heq]

theorem allIvs_val_none (d h : ℕ) (q : (ℕ × ℕ × ℕ) × Option ℚ) (hq : q ∈ allIvs d h) :
    q.2 = none := by
  unfold allIvs at hq
  rcases List.mem_map.mp hq with ⟨iv, _, heq⟩
  rw [← heq]

theorem fillForDateS_val_none (acc : KCol (ℕ × ℕ × ℕ)) (d : ℕ) (q : (ℕ × ℕ × ℕ) × Option ℚ)
    (hq : q ∈ fillForDateS acc d) : q.2 = none := by
  unfold fillForDateS at hq
  split at hq
  · split at hq
    · rcases List.mem_flatMap.mp hq with ⟨h, _, hq2⟩
      split at hq2
      · exact fillMissingIvs_val_none acc d h q hq2
      · simp at hq2
    · rcases List.mem_flatMap.mp hq with ⟨h, _, hq2⟩
      split at hq2
      · exact allIvs_val_none d h q hq2
      · split at hq2
        · exact fillMissingIvs_val_none acc d h q hq2
        · simp at hq2
  · rcases List.mem_flatMap.mp hq with ⟨h, _, hq2⟩
    exact allIvs_val_none d h q hq2

theorem cellOf_colPairsH_first (recs : List Rec) (dr : List ℕ) (u : String) (s : ℕ × ℕ)
    (x : (ℕ × ℕ) × Option ℚ)
    (h : (entityPairsH recs u).find? (fun p => decide (p.1 = s)) = some x) :
    cellOf (colPairsH recs dr u) s = x.2 := by
  unfold colPairsH
  rw [cellOf_sort_dedup]
  rcases gapFillFold_append fillForDateH dr (entityPairsH recs u) with ⟨rest, hr⟩
  unfold cellOf
  rw [hr, List.find?_append, h]
  rfl

theorem cellOf_colPairsH_none (recs : List Rec) (dr : List ℕ) (u : String) (s : ℕ × ℕ)
    (h : (entityPairsH recs u).find? (fun p => decide (p.1 = s)) = none) :
    cellOf (colPairsH recs dr u) s = none := by
  unfold colPairsH
  rw [cellOf_sort_dedup]
  unfold cellOf
  cases hf : (gapFillFold fillForDateH dr (entityPairsH recs u)).find?
      (fun p => decide (p.1 = s)) with
  | none => rfl
  | some q =>
    rcases gapFillFold_mem fillForDateH fillForDateH_val_none dr (entityPairsH recs u) q
        (List.mem_of_find?_eq_some hf) with hmem | hval
    · exfalso
      have hno := List.find?_eq_none.mp h q hmem
      have hyes := List.find?_some hf
      exact hno hyes
    · exact hval

theorem entityPairsH_find? (u : String) (s : ℕ × ℕ) :
    ∀ recs : List Rec,
      (entityPairsH recs u).find? (fun p => decide (p.1 = s)) =
        (recs.find? (fun r => decide (r.unit = u) && decide ((r.date, r.he) = s))).map
          (fun r => ((r.date, r.he), some r.value)) := by
  intro recs
  induction recs with
  | nil => rfl
  | cons r recs ih =>
    unfold entityPairsH
    by_cases hu : r.unit = u
    · rw [List.filter_cons_of_pos (by simp [hu]), List.map_cons]
      by_cases hs : (r.date, r.he) = s
      · rw [List.find?_cons_of_pos _ (by simp [hs]), List.find?_cons_of_pos _ (by simp [hu, hs])]
        rfl
      · rw [List.find?_cons_of_neg _ (by simp [hs]), List.find?_cons_of_neg _ (by simp [hs])]
        exact ih
    · rw [List.filter_cons_of_neg (by simp [hu]), List.find?_cons_of_neg _ (by simp [hu])]
      exact ih

theorem foldl_map_commute :
    ∀ (hs : List ℕ) (l : List ℕ),
      hs.foldl (fun col hour => col.map (fun v => if v = hour then hour - 1 else v)) l =
        l.map (fun x => hs.foldl (fun v hour => if v = hour then hour - 1 else v) x) := by
  intro hs
  induction hs with
  | nil => intro l; simp
  | cons h hs ih =>
    intro l
    rw [List.foldl_cons, ih, List.map_map]
    rfl

theorem hourRemapList_eq_map (l : List ℕ) : hourRemapList l = l.map hourRemapSingle :=
  foldl_map_commute (List.range' 1 24) l

theorem hourRemapSingle_Icc : ∀ x ∈ Finset.Icc 1 24, hourRemapSingle x = x - 1 := by decide

theorem hourlyGrid_length (dr : List ℕ) : (hourlyGrid dr).length = dr.length * 24 := by
  induction dr with
  | nil => rfl
  | cons d dr ih =>
    unfold hourlyGrid at ih ⊢
    rw [List.flatMap_cons, List.length_append, ih, List.length_map, List.length_range,
      List.length_cons]
    ring

theorem subGrid_inner_length (d : ℕ) :
    ∀ l : List ℕ,
      (l.flatMap (fun h => [0, 15, 30, 45].map (fun iv => (d, h, iv)))).length = 4 * l.length := by
  intro l
  induction l with
  | nil => rfl
  | cons h l ih =>
    rw [List.flatMap_cons, List.length_append, ih, List.length_map]
    simp only [List.length_cons, List.length_nil]
    ring

theorem subGrid_length (dr : List ℕ) : (subGrid dr).length = dr.length * 96 := by
  induction dr with
  | nil => rfl
  | cons d dr ih =>
    unfold subGrid at ih ⊢
    rw [List.flatMap_cons, List.length_append, ih, subGrid_inner_length d (List.range 24),
      List.length_range, List.length_cons]
    ring

theorem dateRangeL_length (dFrom dTo : ℕ) (h : dFrom ≤ dTo) :
    (dateRangeL dFrom dTo).length = dTo - dFrom + 1 := by
  rw [dateRangeL, if_pos h, List.length_range']

theorem dateRangeL_empty (dFrom dTo : ℕ) (h : dTo < dFrom) : dateRangeL dFrom dTo = [] := by
  rw [dateRangeL, if_neg (by omega)]

theorem dateRangeL_nodup (dFrom dTo : ℕ) : (dateRangeL dFrom dTo).Nodup := by
  rw [dateRangeL]
  split
  · exact List.nodup_range' _ _
  · exact List.nodup_nil

theorem mem_hourlyGrid_fst {dr : List ℕ} {x : ℕ × ℕ} (hx : x ∈ hourlyGrid dr) : x.1 ∈ dr := by
  unfold hourlyGrid at hx
  rcases List.mem_flatMap.mp hx with ⟨d, hd, hx2⟩
  rcases List.mem_map.mp hx2 with ⟨h, _, rfl⟩
  exact hd

theorem hourlyGrid_nodup (dr : List ℕ) (hdr : dr.Nodup) : (hourlyGrid dr).Nodup := by
  induction dr with
  | nil => exact List.nodup_nil
  | cons d dr ih =>
    unfold hourlyGrid
    rw [List.flatMap_cons]
    apply List.Nodup.append
    · exact (List.nodup_range 24).map (fun a b hab => (Prod.ext_iff.mp hab).2)
    · exact ih (List.nodup_cons.mp hdr).2
    · intro x hx1 hx2
      rcases List.mem_map.mp hx1 with ⟨h, _, rfl⟩
      have hfst : ((d, h) : ℕ × ℕ).1 ∈ dr := mem_hourlyGrid_fst hx2
      exact (List.nodup_cons.mp hdr).1 hfst

theorem foldl_mergeRowMult_nil {κ : Type} [DecidableEq κ] (colFn : String → KCol κ) :
    ∀ us : List String, us.foldl (fun rows u => mergeRowMult rows (colFn u)) [] = [] := by
  intro us
  induction us with
  | nil => rfl
  | cons u us ih =>
    rw [List.foldl_cons]
    exact ih

theorem getDataAux_exit (F : Fetcher) (fuel t : ℕ) (raw : List ℕ) (cur N : ℕ) (hf : fuel ≠ 0)
    (h : N < cur) : getDataAux F fuel t raw cur (some N) = some raw := by
  cases fuel with
  | zero => exact absurd rfl hf
  | succ fuel =>
    simp only [getDataAux]
    rw [if_pos h]

theorem getDataAux_discovery (F : Fetcher) (fuel t : ℕ) (raw : List ℕ) (cur : ℕ) (N : ℕ)
    (h : F.metaAt t = some N) :
    getDataAux F (fuel + 1) t raw cur none = getDataAux F fuel (t + 1) [] 1 (some N) := by
  simp only [getDataAux]
  rw [h]

theorem getDataAux_pageFail (F : Fetcher) (fuel t : ℕ) (raw : List ℕ) (cur N : ℕ)
    (hcur : ¬ N < cur) (h : F.pageAt t cur = none) :
    getDataAux F (fuel + 1) t raw cur (some N) = getDataAux F fuel (t + 1) raw cur (some N) := by
  simp only [getDataAux]
  rw [if_neg hcur, h]

theorem getDataAux_run (F : Fetcher) (data : ℕ → List ℕ) :
    ∀ (k fuel t cur : ℕ) (raw : List ℕ) (N : ℕ),
      cur + k ≤ N + 1 →
      (∀ i, i < k → F.pageAt (t + i) (cur + i) = some (data (cur + i))) →
      getDataAux F (fuel + k) t raw cur (some N) =
        getDataAux F fuel (t + k) (((List.range' cur k).reverse).flatMap data ++ raw) (cur + k)
          (some N) := by
  intro k
  induction k with
  | zero =>
    intro fuel t cur raw N _ _
    simp
  | succ k ih =>
    intro fuel t cur raw N hle hpages
    have hcur : ¬ N < cur := by omega
    have hstep : getDataAux F (fuel + (k + 1)) t raw cur (some N) =
        getDataAux F (fuel + k) (t + 1) (data cur ++ raw) (cur + 1) (some N) := by
      rw [show fuel + (k + 1) = (fuel + k) + 1 from rfl]
      simp only [getDataAux]
      rw [if_neg hcur]
      have h0 := hpages 0 (by omega)
      simp only [Nat.add_zero] at h0
      rw [h0]
    rw [hstep]
    have ihh := ih fuel (t + 1) (cur + 1) (data cur ++ raw) N (by omega) ?hp
    case hp =>
      intro i hi
      rw [show t + 1 + i = t + (i + 1) from by omega,
        show cur + 1 + i = cur + (i + 1) from by omega]
      exact hpages (i + 1) (by omega)
    rw [ihh]
    have e1 : t + 1 + k = t + (k + 1) := by omega
    have e2 : cur + 1 + k = cur + (k + 1) := by omega
    have e3 : ((List.range' (cur + 1) k).reverse).flatMap data ++ (data cur ++ raw) =
        ((List.range' cur (k + 1)).reverse).flatMap data ++ raw := by
      rw [List.range'_succ, List.reverse_cons, List.flatMap_append, List.append_assoc]
      simp [List.flatMap_cons]
    rw [e1, e2, e3]

theorem getDataAux_metaMissing : ∀ fuel t : ℕ, getDataAux metaMissingF fuel t [] 1 none = none := by
  intro fuel
  induction fuel with
  | zero => intro t; rfl
  | succ fuel ih =>
    intro t
    simp only [getDataAux, metaMissingF]
    exact ih (t + 1)

/-! Claim theorems. -/

/-- Claim C3 (confirmed): when page p of N (1 < p ≤ N) raises a metadata/key
error on its first request, __get_data re-enters at page p with the
accumulated pages preserved and, on success, returns every record of every
page exactly once. The scripted upstream answers only the exact resume
sequence (discovery, pages 1..p-1, the failed page-p request, then pages
p..N) and starves every other request, so the proved success certifies that
the engine neither restarts from page 1 nor re-fetches an already
accumulated page, and the returned set is exactly the pages' records, the
retried page contributing once. -/
theorem C3_resume (N p : ℕ) (data : ℕ → List ℕ) (hp1 : 1 < p) (hp2 : p ≤ N) :
    getData (oneFailF N p data) (N + 3) = some (pagesRev N data) := by
  unfold getData
  have hmeta : (oneFailF N p data).metaAt 0 = some N := by simp [oneFailF]
  rw [show N + 3 = (N + 2) + 1 from rfl,
    getDataAux_discovery (oneFailF N p data) (N + 2) 0 [] 1 N hmeta]
  have hpages1 : ∀ i, i < p - 1 →
      (oneFailF N p data).pageAt (1 + i) (1 + i) = some (data (1 + i)) := by
    intro i hi
    simp only [oneFailF]
    split_ifs with h1 h2
    · rfl
    · exact (h1 ⟨by omega, by omega, by trivial⟩).elim
    · exact (h1 ⟨by omega, by omega, by trivial⟩).elim
  rw [show N + 2 = (N - p + 3) + (p - 1) from by omega,
    getDataAux_run (oneFailF N p data) data (p - 1) (N - p + 3) 1 1 [] N (by omega) hpages1,
    show 1 + (p - 1) = p from by omega]
  have hfail : (oneFailF N p data).pageAt p p = none := by
    simp only [oneFailF]
    split_ifs with h1 h2
    · omega
    · omega
    · rfl
  rw [show N - p + 3 = (N - p + 2) + 1 from rfl,
    getDataAux_pageFail (oneFailF N p data) (N - p + 2) p _ p N (by omega) hfail]
  have hpages2 : ∀ i, i < N + 1 - p →
      (oneFailF N p data).pageAt (p + 1 + i) (p + i) = some (data (p + i)) := by
    intro i hi
    simp only [oneFailF]
    split_ifs with h1 h2
    · omega
    · rw [show p + 1 + i - 1 = p + i from by omega]
    · exact (h2 ⟨by omega, by omega, by omega⟩).elim
  rw [show N - p + 2 = 1 + (N + 1 - p) from by omega,
    getDataAux_run (oneFailF N p data) data (N + 1 - p) 1 (p + 1) p _ N (by omega) hpages2,
    show p + (N + 1 - p) = N + 1 from by omega,
    getDataAux_exit (oneFailF N p data) 1 _ _ (N + 1) N (by omega) (by omega)]
  have hsplit : List.range' 1 (p - 1) ++ List.range' p (N + 1 - p) = List.range' 1 N := by
    have h := List.range'_append 1 (p - 1) (N + 1 - p) 1
    rw [show 1 + 1 * (p - 1) = p from by omega,
      show N + 1 - p + (p - 1) = N from by omega] at h
    exact h
  rw [pagesRev, ← hsplit, List.reverse_append, List.flatMap_append, List.append_nil]

/-- Witness for C3 at N = 3, p = 2: the final record set holds the three
pages' records exactly once, in reverse page order. -/
theorem C3_witness :
    getData (oneFailF 3 2 (fun q => [q])) 6 = some (pagesRev 3 (fun q => [q])) ∧
      pagesRev 3 (fun q => [q]) = [3, 2, 1] :=
  ⟨C3_resume 3 2 (fun q => [q]) (by omega) (by omega), by decide⟩

/-- Claim C4 (counterexample): a successful two-page fetch returns the
records of page 2 *before* the records of page 1, so for page indices
i < j the records of page i do not precede those of page j. -/
theorem C4_counterexample :
    getData (allGoodF 2 (fun q => [q])) 4 = some [2, 1] ∧
      getData (allGoodF 2 (fun q => [q])) 4 ≠ some [1, 2] := by
  exact ⟨by decide, by decide⟩

/-- Claim C4 (amended): on a successful multi-page fetch the returned record
set is the concatenation of the pages in *reverse* page order — for page
indices i < j, the records of page j precede the records of page i —
because each fetched page is prepended to the accumulator by
pd.concat([new_page, raw_data]) (line 221). -/
theorem C4_amended (N : ℕ) (data : ℕ → List ℕ) :
    getData (allGoodF N data) (N + 2) = some (pagesRev N data) := by
  unfold getData
  rw [show N + 2 = (N + 1) + 1 from rfl,
    getDataAux_discovery (allGoodF N data) (N + 1) 0 [] 1 N rfl,
    show N + 1 = 1 + N from by omega,
    getDataAux_run (allGoodF N data) data N 1 1 1 [] N (by omega) (fun i _ => rfl),
    getDataAux_exit (allGoodF N data) 1 _ _ (1 + N) N (by omega) (by omega)]
  rw [pagesRev, List.append_nil]

/-- Claim C5 (code_bug): when the totalPages metadata is persistently
missing from the discovery response, __get_data re-issues the discovery
fetch unconditionally (line 210): within any finite request budget it never
returns, and no bounded retry cap or FetchError exists anywhere in the
source. -/
theorem C5_unbounded_retry : ∀ fuel : ℕ, getData metaMissingF fuel = none := by
  intro fuel
  exact getDataAux_metaMissing fuel 0

/-- Claim C6 (counterexample): a fetch entered with a still-valid token
(cutoff 2, time 0) issues its second page request at time 2, at the cutoff,
without any refresh: the only expiry check is at invocation entry
(lines 190-192), not before each page request of the loop. -/
theorem C6_counterexample :
    (getDataT (allGoodF 2 (fun q => [q])) 6 0 2).map (fun r => expiredSend r.1) = some true ∧
      getDataT (allGoodF 2 (fun q => [q])) 6 0 2 = some ([(2, 2), (1, 2)], [2, 1]) := by
  exact ⟨by decide, by decide⟩

/-- Claim C6 (amended): the token expiry is checked only at invocation
entry; when the entry check finds the token expired (cutoff ≤ now), the
refresh runs before any request of that invocation and resets the cutoff to
now + 50 minutes, so every request of this two-page run is sent strictly
before the refreshed cutoff; requests issued mid-loop after the cutoff
passes are sent without a refresh (see the counterexample). -/
theorem C6_amended (now cutoff : ℕ) (data : ℕ → List ℕ) (h : cutoff ≤ now) :
    getDataT (allGoodF 2 data) 5 now cutoff =
      some ([(now + 2, now + 50), (now + 1, now + 50)], data 2 ++ (data 1 ++ [])) ∧
      now + 1 < now + 50 ∧ now + 2 < now + 50 := by
  refine ⟨?_, by omega, by omega⟩
  unfold getDataT
  simp [getDataTAux, allGoodF, h]

/-- Witness for C6 at now = 5, cutoff = 3: the entry refresh resets the
cutoff to 55 and both page requests are sent before it. -/
theorem C6_witness :
    getDataT (allGoodF 2 (fun q => [q])) 5 5 3 =
      some ([(5 + 2, 5 + 50), (5 + 1, 5 + 50)], [2] ++ ([1] ++ [])) :=
  (C6_amended 5 3 (fun q => [q]) (by omega)).1

/-- Claim C1 (counterexample): with the valid one-day range 0..0 and an
empty raw record set, get_dam_lmp raises a KeyError at raw_data.drop
(modelled: returns no table) instead of returning a 24-row table, and the
sub-hourly reports likewise raise instead of returning a 96-row table. -/
theorem C1_counterexample :
    get_dam_lmp [] 0 0 = none ∧ get_rtm_spp "LZ" [] 0 0 = none := ⟨rfl, rfl⟩

/-- Claim C1 (amended): for every valid inclusive range and every
*non-empty* raw record set (zero records for some entities still allowed),
the hourly reports (get_dam_lmp, get_dam_spp) return a table with exactly
days × 24 rows and the sub-hourly reports (get_rtm_spp_lz / _hub / _rn,
any tag) one with exactly days × 96 rows; an empty raw record set instead
raises (see the counterexample). -/
theorem C1_amended (recs : List Rec) (sraws : List SubRaw) (tag : String) (dFrom dTo : ℕ)
    (hd : dFrom ≤ dTo) (h1 : recs ≠ []) (h2 : sraws ≠ []) :
    (get_dam_lmp recs dFrom dTo).map (fun T => T.rows.length) = some ((dTo - dFrom + 1) * 24) ∧
      (get_rtm_spp tag sraws dFrom dTo).map (fun T => T.rows.length) =
        some ((dTo - dFrom + 1) * 96) := by
  constructor
  · rw [get_dam_lmp, if_neg h1, Option.map_some']
    congr 1
    show (hourlyTable (remapRecs recs) dFrom dTo).rows.length = (dTo - dFrom + 1) * 24
    have hrows : (hourlyTable (remapRecs recs) dFrom dTo).rows
        = hourlyGrid (dateRangeL dFrom dTo) :=
      foldl_mergeRowMult (fun u => colPairsH (remapRecs recs) (dateRangeL dFrom dTo) u)
        (fun u s => sort_dedup_countP_le_one _ _ s) _ _
    rw [hrows, hourlyGrid_length, dateRangeL_length dFrom dTo hd]
  · rw [get_rtm_spp, if_neg h2, Option.map_some']
    congr 1
    show (subTable (remapSubRecs (sraws.filter (fun r => decide (r.tag = tag)))) dFrom
      dTo).rows.length = (dTo - dFrom + 1) * 96
    have hrows : (subTable (remapSubRecs (sraws.filter (fun r => decide (r.tag = tag)))) dFrom
        dTo).rows = subGrid (dateRangeL dFrom dTo) :=
      foldl_mergeRowMult
        (fun u => colPairsS (remapSubRecs (sraws.filter (fun r => decide (r.tag = tag))))
          (dateRangeL dFrom dTo) u)
        (fun u s => sort_dedup_countP_le_one _ _ s) _ _
    rw [hrows, subGrid_length, dateRangeL_length dFrom dTo hd]

/-- Witness for C1: a two-day range with one hourly and one sub-hourly raw
record yields 48 and 192 rows. -/
theorem C1_witness :
    (get_dam_lmp [⟨0, 1, "U", 10⟩] 0 1).map (fun T => T.rows.length) = some ((1 - 0 + 1) * 24) ∧
      (get_rtm_spp "LZ" [⟨0, 1, 1, "A", "LZ", 1⟩] 0 1).map (fun T => T.rows.length) =
        some ((1 - 0 + 1) * 96) :=
  C1_amended [⟨0, 1, "U", 10⟩] [⟨0, 1, 1, "A", "LZ", 1⟩] "LZ" 0 1 (by omega) (by decide)
    (by decide)

/-- Claim C2 (confirmed): in the hourly normalized output, the row set is
exactly the canonical grid with no slot absent or duplicated, so every
entity column has exactly one cell per canonical slot, and every slot with
no raw datum for that entity holds the missing-value marker (whether filled
by the gap-fill loop or by the left-merge). -/
theorem C2_one_value_per_slot (recs : List Rec) (dFrom dTo : ℕ) (u : String)
    (hu : u ∈ unitsOf Rec.unit recs) :
    (hourlyTable recs dFrom dTo).rows = hourlyGrid (dateRangeL dFrom dTo) ∧
      (hourlyTable recs dFrom dTo).rows.Nodup ∧
      (∀ s : ℕ × ℕ, (∀ r ∈ recs, r.unit = u → (r.date, r.he) ≠ s) →
        (hourlyTable recs dFrom dTo).cell u s = none) := by
  have hrows : (hourlyTable recs dFrom dTo).rows = hourlyGrid (dateRangeL dFrom dTo) :=
    foldl_mergeRowMult (fun u => colPairsH recs (dateRangeL dFrom dTo) u)
      (fun u s => sort_dedup_countP_le_one _ _ s) _ _
  refine ⟨hrows, ?_, ?_⟩
  · rw [hrows]
    exact hourlyGrid_nodup _ (dateRangeL_nodup dFrom dTo)
  · intro s hs
    show cellOf (colPairsH recs (dateRangeL dFrom dTo) u) s = none
    apply cellOf_colPairsH_none
    rw [List.find?_eq_none]
    intro x hx
    unfold entityPairsH at hx
    rcases List.mem_map.mp hx with ⟨r, hrf, rfl⟩
    have hru : r.unit = u := by simpa using List.of_mem_filter hrf
    have hrm : r ∈ recs := List.mem_of_mem_filter hrf
    simpa using hs r hrm hru

/-- Witness for C2: one record at hour 3 of the single requested day; slot
(0, 7) carries the missing-value marker. -/
theorem C2_witness : (hourlyTable [⟨0, 3, "U", 10⟩] 0 0).cell "U" (0, 7) = none :=
  (C2_one_value_per_slot [⟨0, 3, "U", 10⟩] 0 0 "U" (by decide)).2.2 (0, 7) (by decide)

/-- Claim C7 (confirmed): when several raw records share the same entity and
the same time key, the normalized cell holds the value of the record that
occurs first in the raw record set — drop_duplicates(keep="first") runs
before the sort, so deduplication is by encounter order, not recency. -/
theorem C7_keep_first (recs : List Rec) (dFrom dTo : ℕ) (u : String) (s : ℕ × ℕ) (r : Rec)
    (h : recs.find? (fun r2 => decide (r2.unit = u) && decide ((r2.date, r2.he) = s)) = some r) :
    (hourlyTable recs dFrom dTo).cell u s = some r.value := by
  show cellOf (colPairsH recs (dateRangeL dFrom dTo) u) s = some r.value
  have hp := entityPairsH_find? u s recs
  rw [h, Option.map_some'] at hp
  exact cellOf_colPairsH_first recs _ u s _ hp

/-- Witness for C7: two records for unit "U" at slot (0, 5) with values 10
then 20; the output keeps 10, the first-encountered value. -/
theorem C7_witness :
    (hourlyTable [⟨0, 5, "U", 10⟩, ⟨0, 5, "U", 20⟩] 0 0).cell "U" (0, 5) = some 10 :=
  C7_keep_first [⟨0, 5, "U", 10⟩, ⟨0, 5, "U", 20⟩] 0 0 "U" (0, 5) ⟨0, 5, "U", 10⟩ (by decide)

/-- Claim C8 (counterexample): normalization does raise on empty input —
with an empty raw record set (here together with an inverted range),
get_dam_lmp raises a KeyError at raw_data.drop (modelled: returns no table)
instead of returning a table. -/
theorem C8_counterexample : get_dam_lmp [] 5 3 = none := rfl

/-- Claim C8 (amended): with an inverted range (from > to) and a non-empty
raw record set, the canonical date range is empty and the reports return a
zero-row table without raising; with an empty raw record set the reports
instead raise a KeyError on the missing columns of the empty frame (see the
counterexample). -/
theorem C8_amended (recs : List Rec) (sraws : List SubRaw) (tag : String) (dFrom dTo : ℕ)
    (h1 : recs ≠ []) (h2 : sraws ≠ []) (hd : dTo < dFrom) :
    (get_dam_lmp recs dFrom dTo).map (fun T => T.rows) = some [] ∧
      (get_rtm_spp tag sraws dFrom dTo).map (fun T => T.rows) = some [] := by
  have hdr : dateRangeL dFrom dTo = [] := dateRangeL_empty dFrom dTo hd
  constructor
  · rw [get_dam_lmp, if_neg h1, Option.map_some']
    congr 1
    show (hourlyTable (remapRecs recs) dFrom dTo).rows = []
    show (unitsOf Rec.unit (remapRecs recs)).foldl
      (fun rows u => mergeRowMult rows (colPairsH (remapRecs recs) (dateRangeL dFrom dTo) u))
      (hourlyGrid (dateRangeL dFrom dTo)) = []
    rw [hdr]
    exact foldl_mergeRowMult_nil _ _
  · rw [get_rtm_spp, if_neg h2, Option.map_some']
    congr 1
    show (subTable (remapSubRecs (sraws.filter (fun r => decide (r.tag = tag)))) dFrom
      dTo).rows = []
    show (unitsOf SubRec.unit (remapSubRecs (sraws.filter (fun r => decide (r.tag = tag))))).foldl
      (fun rows u => mergeRowMult rows
        (colPairsS (remapSubRecs (sraws.filter (fun r => decide (r.tag = tag))))
          (dateRangeL dFrom dTo) u))
      (subGrid (dateRangeL dFrom dTo)) = []
    rw [hdr]
    exact foldl_mergeRowMult_nil _ _

/-- Witness for C8: inverted range 5..3 with non-empty records gives
zero-row tables without raising. -/
theorem C8_witness :
    (get_dam_lmp [⟨0, 1, "U", 10⟩] 5 3).map (fun T => T.rows) = some [] ∧
      (get_rtm_spp "LZ" [⟨0, 1, 1, "A", "LZ", 1⟩] 5 3).map (fun T => T.rows) = some [] :=
  C8_amended [⟨0, 1, "U", 10⟩] [⟨0, 1, 1, "A", "LZ", 1⟩] "LZ" 5 3 (by decide) (by decide)
    (by omega)

set_option maxRecDepth 100000 in
/-- Claim C9 (confirmed): the derived HB_HUBAVG column is the skipna
row-wise mean of the entity columns — missing markers are excluded from
both the sum and the count, and the mean is missing only when every entity
cell of the row is missing; concretely, with hub entities HB_A = 10 and
HB_B absent at slot (0,0,0), the derived average there is 10, not
missing. -/
theorem C9_hub_average :
    (∀ (T : STable) (s : ℕ × ℕ × ℕ),
      ((T.units.map (fun u => T.cell u s)).filterMap id = [] → hubAvgOf T s = none) ∧
      ((T.units.map (fun u => T.cell u s)).filterMap id ≠ [] →
        hubAvgOf T s =
          some (((T.units.map (fun u => T.cell u s)).filterMap id).sum /
            ((T.units.map (fun u => T.cell u s)).filterMap id).length))) ∧
      (get_rtm_spp_hub hubScnRaws 0 0).map
          (fun P => (P.1.cell "HB_A" (0, 0, 0), P.1.cell "HB_B" (0, 0, 0), P.2 (0, 0, 0))) =
        some (some 10, none, some 10) := by
  constructor
  · intro T s
    constructor
    · intro hemp
      unfold hubAvgOf rowMean
      rw [if_pos hemp]
    · intro hne
      unfold hubAvgOf rowMean
      rw [if_neg hne]
  · have hsome : get_rtm_spp_hub hubScnRaws 0 0 = some (hubScnT, hubAvgOf hubScnT) := rfl
    have hA : hubScnT.cell "HB_A" (0, 0, 0) = some 10 := by decide
    have hB : hubScnT.cell "HB_B" (0, 0, 0) = none := by decide
    have hU : hubScnT.units = ["HB_A", "HB_B"] := by decide
    have hAvg : hubAvgOf hubScnT (0, 0, 0) = some 10 := by
      unfold hubAvgOf
      rw [hU, List.map_cons, List.map_cons, List.map_nil, hA, hB, rowMean,
        show List.filterMap id [some (10 : ℚ), none] = [10] from by decide,
        if_neg (by decide)]
      norm_num
    rw [hsome, Option.map_some']
    simp only [hA, hB, hAvg]

/-- Witness for C9: a table whose single entity column is missing at a slot
has a missing mean there. -/
theorem C9_witness : hubAvgOf ⟨[], ["X"], fun _ _ => none⟩ (0, 0, 0) = none :=
  (C9_hub_average.1 ⟨[], ["X"], fun _ _ => none⟩ (0, 0, 0)).1 (by decide)

/-- Claim C10 (confirmed): on hour-ending values in [1, 24] the sequential
replace loop (1 to 0, then 2 to 1, ..., then 24 to 23, ascending) equals the
total map h to h - 1 applied once to each value — no value is remapped
twice, because each pass lowers a value below every later pass's target —
and therefore each raw record is indexed at hour-ending h - 1. -/
theorem C10_hour_remap :
    (∀ l : List ℕ, (∀ x ∈ l, 1 ≤ x ∧ x ≤ 24) → hourRemapList l = l.map (fun h => h - 1)) ∧
      (∀ recs : List Rec, (∀ r ∈ recs, 1 ≤ r.he ∧ r.he ≤ 24) →
        remapRecs recs = recs.map (fun r => ⟨r.date, r.he - 1, r.unit, r.value⟩)) := by
  have hsingle : ∀ x : ℕ, 1 ≤ x → x ≤ 24 → hourRemapSingle x = x - 1 := by
    intro x hx1 hx2
    exact hourRemapSingle_Icc x (Finset.mem_Icc.mpr ⟨hx1, hx2⟩)
  constructor
  · intro l hl
    rw [hourRemapList_eq_map]
    apply List.map_congr_left
    intro x hx
    exact hsingle x (hl x hx).1 (hl x hx).2
  · intro recs hrecs
    unfold remapRecs
    apply List.map_congr_left
    intro r hr
    rw [hsingle r.he (hrecs r hr).1 (hrecs r hr).2]

/-- Witness for C10: the column [1, 24, 7] remaps to [0, 23, 6]. -/
theorem C10_witness : hourRemapList [1, 24, 7] = [0, 23, 6] := by
  rw [C10_hour_remap.1 [1, 24, 7] (by decide)]
  decide

end ERCOTAPI
